import Mathlib

/-!
# Verification of the parts-list conversion engine

Shallow embedding of the part identification and classification engine of
the `launch_app` repository (`parts_converter.py`, `component_classifier.py`)
together with proofs of the behavioural claims about it.

Strings are modelled as their character lists.  The Python regular
expressions used by the source are fixed and simple, so each one is
translated into a hand-written matcher that reproduces the behaviour of
Python's backtracking engine (leftmost match, greedy quantifiers) for that
concrete pattern.  `re.findall` is modelled by `findAll`, which scans left
to right and continues after the end of each match, exactly as Python does
for patterns that cannot match the empty string (all patterns used here
require at least one character).

Python's `int(a / b)` (float true division then truncation toward zero) is
modelled by `Int.tdiv`, exact truncated division; a `ZeroDivisionError` is
modelled by `none`.  Python's `str.strip` / truthiness of stripped strings
is modelled over the ASCII whitespace characters.  `str.lower`/`str.upper`
are modelled on the ASCII range, which covers every string the engine
compares case-insensitively.
-/

namespace LaunchApp

/-! ## Character classes -/

/-- ASCII whitespace characters recognised by Python's `str.strip` and `\s`. -/
def isSpaceCh (c : Char) : Bool :=
  c = ' ' || c = '\t' || c = '\n' || c = '\r' || c = '\x0b' || c = '\x0c'

/-- `\d`: a decimal digit. -/
def isDigitCh (c : Char) : Bool := '0' ≤ c && c ≤ '9'

/-- `[A-Z]` in a case-sensitive pattern: an uppercase ASCII letter. -/
def isUpperCh (c : Char) : Bool := 'A' ≤ c && c ≤ 'Z'

/-- `[A-Z]` under `re.IGNORECASE`: any ASCII letter. -/
def isLetterCI (c : Char) : Bool := isUpperCh c || ('a' ≤ c && c ≤ 'z')

/-- `.` in a Python regex: any character except a newline. -/
def dotCh (c : Char) : Bool := c ≠ '\n'

/-- ASCII lowering, the effect of Python's `str.lower` on the inputs compared here. -/
def lowCh (c : Char) : Char :=
  if isUpperCh c then Char.ofNat (c.toNat + 32) else c

/-- ASCII raising, the effect of Python's `str.upper` on the inputs compared here. -/
def upCh (c : Char) : Char :=
  if 'a' ≤ c && c ≤ 'z' then Char.ofNat (c.toNat - 32) else c

/-! ## String helpers -/

/-- Length of the longest prefix of `l` whose characters satisfy `p`. -/
def countWhile (p : Char → Bool) (l : List Char) : Nat :=
  (l.takeWhile p).length

/-- Python `str.strip`: remove leading and trailing whitespace. -/
def pyStrip (s : String) : String :=
  String.mk (((s.data.dropWhile isSpaceCh).reverse.dropWhile isSpaceCh).reverse)

/-- Python `str.lower` (ASCII). -/
def lowerStr (s : String) : String := String.mk (s.data.map lowCh)

/-- Does `l` start with `p` (character-wise equality)? -/
def prefixEq : List Char → List Char → Bool
  | [], _ => true
  | _ :: _, [] => false
  | a :: p, b :: l => a = b && prefixEq p l

/-- Python's `needle in hay` substring test. -/
def containsL (needle : List Char) : List Char → Bool
  | [] => prefixEq needle []
  | c :: t => prefixEq needle (c :: t) || containsL needle t

/-! ## `re.findall`

`findAllAux` scans the string left to right.  At each position it asks the
matcher for the length of the (unique, greedy) match starting there; on
success it emits the matched text and resumes after it, otherwise it
advances one character.  The fuel argument (initialised to the string
length) only serves termination: every step consumes at least one
character, so the fuel never runs out early. -/

def findAllAux (m : List Char → Option Nat) : Nat → List Char → List String
  | 0, _ => []
  | _ + 1, [] => []
  | fuel + 1, c :: rest =>
    match m (c :: rest) with
    | some n => String.mk ((c :: rest).take n) :: findAllAux m fuel (rest.drop (n - 1))
    | none => findAllAux m fuel rest

/-- All non-overlapping matches of `m` in `l`, leftmost first. -/
def findAll (m : List Char → Option Nat) (l : List Char) : List String :=
  findAllAux m l.length l

/-! ## Part-number patterns (`detect_part_numbers`)

The five patterns, searched with `re.IGNORECASE`.  Each matcher returns the
length of the greedy match starting at the current position, or `none`.
Within a pattern, a counted class like `[A-Z]{2,6}` must consume the whole
letter run at the position (stopping earlier leaves a letter where a digit
is required, so every backtracking alternative fails); the optional tail
components are consumed greedily in order and can never fail. -/

/-- `[A-Z]{2,6}\d{2,8}[A-Z]*\d*[A-Z]*-?[A-Z]*\d*` -/
def matchA (l : List Char) : Option Nat :=
  let lr := countWhile isLetterCI l
  if 2 ≤ lr ∧ lr ≤ 6 then
    let l1 := l.drop lr
    let dr := countWhile isDigitCh l1
    if 2 ≤ dr then
      let d1 := min dr 8
      let l2 := l1.drop d1
      let a1 := countWhile isLetterCI l2
      let l3 := l2.drop a1
      let n1 := countWhile isDigitCh l3
      let l4 := l3.drop n1
      let a2 := countWhile isLetterCI l4
      let l5 := l4.drop a2
      let hd := if l5.head? = some '-' then 1 else 0
      let l6 := l5.drop hd
      let a3 := countWhile isLetterCI l6
      let l7 := l6.drop a3
      let n2 := countWhile isDigitCh l7
      some (lr + d1 + a1 + n1 + a2 + hd + a3 + n2)
    else none
  else none

/-- `[A-Z]+\d+[A-Z]+\d+[A-Z]*` -/
def matchB (l : List Char) : Option Nat :=
  let lr := countWhile isLetterCI l
  if 1 ≤ lr then
    let l1 := l.drop lr
    let d1 := countWhile isDigitCh l1
    if 1 ≤ d1 then
      let l2 := l1.drop d1
      let lr2 := countWhile isLetterCI l2
      if 1 ≤ lr2 then
        let l3 := l2.drop lr2
        let d2 := countWhile isDigitCh l3
        if 1 ≤ d2 then
          let l4 := l3.drop d2
          let lr3 := countWhile isLetterCI l4
          some (lr + d1 + lr2 + d2 + lr3)
        else none
      else none
    else none
  else none

/-- `[A-Z]{3,}\d{2,}[A-Z]*` -/
def matchC (l : List Char) : Option Nat :=
  let lr := countWhile isLetterCI l
  if 3 ≤ lr then
    let l1 := l.drop lr
    let dr := countWhile isDigitCh l1
    if 2 ≤ dr then
      let l2 := l1.drop dr
      let lr2 := countWhile isLetterCI l2
      some (lr + dr + lr2)
    else none
  else none

/-- `[A-Z]+\d+[A-Z]*-[A-Z]*\d*` -/
def matchD (l : List Char) : Option Nat :=
  let lr := countWhile isLetterCI l
  if 1 ≤ lr then
    let l1 := l.drop lr
    let dr := countWhile isDigitCh l1
    if 1 ≤ dr then
      let l2 := l1.drop dr
      let a1 := countWhile isLetterCI l2
      let l3 := l2.drop a1
      if l3.head? = some '-' then
        let l4 := l3.drop 1
        let a2 := countWhile isLetterCI l4
        let l5 := l4.drop a2
        let d2 := countWhile isDigitCh l5
        some (lr + dr + a1 + 1 + a2 + d2)
      else none
    else none
  else none

/-- `[A-Z]+\d+` -/
def matchE (l : List Char) : Option Nat :=
  let lr := countWhile isLetterCI l
  if 1 ≤ lr then
    let l1 := l.drop lr
    let dr := countWhile isDigitCh l1
    if 1 ≤ dr then some (lr + dr) else none
  else none

/-! ## Confidence bonus (`re.search(r'[A-Z]{2,}.*\d{3,}.*[A-Z]', match)`)

This search is performed WITHOUT `re.IGNORECASE` in the source, so it only
recognises uppercase letters.  Search succeeds iff some position starts a
match; after the two mandatory uppercase letters the rest of a longer run
is absorbed by `.*`, and likewise after the three mandatory digits, so the
scan below is exactly the existence of a match. -/

/-- `.*[A-Z]` starting here: an uppercase letter now, or step over a non-newline. -/
def tailUpper : List Char → Bool
  | [] => false
  | c :: l => isUpperCh c || (dotCh c && tailUpper l)

/-- `\d{3,}.*[A-Z]` starting here. -/
def dig3Then : List Char → Bool
  | d1 :: d2 :: d3 :: l => isDigitCh d1 && isDigitCh d2 && isDigitCh d3 && tailUpper l
  | _ => false

/-- `.*\d{3,}.*[A-Z]` starting here. -/
def midScan : List Char → Bool
  | [] => false
  | c :: l => dig3Then (c :: l) || (dotCh c && midScan l)

/-- `[A-Z]{2,}.*\d{3,}.*[A-Z]` starting here. -/
def upper2Then : List Char → Bool
  | u1 :: u2 :: l => isUpperCh u1 && isUpperCh u2 && midScan l
  | _ => false

/-- `re.search` of the bonus pattern: a match starting at any position. -/
def bonusSearch : List Char → Bool
  | [] => false
  | c :: l => upper2Then (c :: l) || bonusSearch l

/-- Confidence of a match under a pattern with base score `base`:
`base + len(match)`, `+10` for the (case-sensitive) structural bonus,
`+5` when the length exceeds 8. -/
def confidence (base : Nat) (m : String) : Nat :=
  base + m.length + (if bonusSearch m.data then 10 else 0) +
    (if 8 < m.length then 5 else 0)

/-! ## Part-number detection over a row (`detect_part_numbers`)

For each row the source keeps a best `(found_part, confidence)` pair,
initially `(None, 0)`.  Cells are visited left to right; a cell whose
stripped value is empty or a known non-part-number label is skipped.  For
each pattern (in declared order) and each match (leftmost first) the pair
is updated exactly when the new confidence is strictly greater. -/

/-- The five patterns with their base priority scores, in declared order. -/
def partPatterns : List ((List Char → Option Nat) × Nat) :=
  [(matchA, 20), (matchB, 15), (matchC, 10), (matchD, 12), (matchE, 5)]

/-- Cell values skipped as obvious non-part-number fields. -/
def skipLabels : List String :=
  ["item", "manufacturer", "quantity", "description", "reference"]

/-- Fold the matches of one pattern into the best-so-far state. -/
def scanMatches (base : Nat) (st : Option String × Nat) (ms : List String) :
    Option String × Nat :=
  ms.foldl
    (fun st m => if st.2 < confidence base m then (some m, confidence base m) else st)
    st

/-- The winning part number of one row, if any cell produced a match. -/
def detectPartRow (row : List String) : Option String :=
  (row.foldl
    (fun st cell =>
      let cs := pyStrip cell
      if cs = "" then st
      else if skipLabels.contains (lowerStr cs) then st
      else partPatterns.foldl (fun st pm => scanMatches pm.2 st (findAll pm.1 cs.data)) st)
    ((none : Option String), 0)).1

/-- `detect_part_numbers`: the `(row index, part number)` pairs of the grid. -/
def detectPartNumbers (df : List (List String)) : List (Nat × String) :=
  df.enum.filterMap (fun p => (detectPartRow p.2).map (fun s => (p.1, s)))

/-! ## Reference designators (`extract_reference_designators`)

Tokens are `[RCLUDQJXYFT]\d+`.  The three row patterns are, in order,
`tok(?:[,;]\s*tok)*`, `tok(?:\s*[,;]\s*tok)*` and `tok(?:-tok)*`, searched
with `re.IGNORECASE`.  The winning match is the one with the most
(case-sensitively counted) tokens, strictly; the final canonical string
re-extracts the tokens case-insensitively and joins them with commas. -/

/-- `[RCLUDQJXYFT]` under `re.IGNORECASE`. -/
def refClassCI (c : Char) : Bool :=
  lowCh c = 'r' || lowCh c = 'c' || lowCh c = 'l' || lowCh c = 'u' || lowCh c = 'd' ||
  lowCh c = 'q' || lowCh c = 'j' || lowCh c = 'x' || lowCh c = 'y' || lowCh c = 'f' ||
  lowCh c = 't'

/-- `[RCLUDQJXYFT]` case-sensitively (the token-counting search has no flag). -/
def refClassCS (c : Char) : Bool :=
  c = 'R' || c = 'C' || c = 'L' || c = 'U' || c = 'D' ||
  c = 'Q' || c = 'J' || c = 'X' || c = 'Y' || c = 'F' || c = 'T'

/-- One token `cls\d+` at the current position, for a given class test. -/
def matchTok (cls : Char → Bool) (l : List Char) : Option Nat :=
  match l with
  | [] => none
  | c :: t =>
    if cls c then
      let d := countWhile isDigitCh t
      if 1 ≤ d then some (1 + d) else none
    else none

/-- Case-insensitive token matcher. -/
def matchTokCI : List Char → Option Nat := matchTok refClassCI

/-- Case-sensitive token matcher. -/
def matchTokCS : List Char → Option Nat := matchTok refClassCS

/-- Group `[,;]\s*tok` of the first row pattern. -/
def group1 (l : List Char) : Option Nat :=
  match l with
  | [] => none
  | c :: t =>
    if c = ',' ∨ c = ';' then
      let w := countWhile isSpaceCh t
      match matchTokCI (t.drop w) with
      | some k => some (1 + w + k)
      | none => none
    else none

/-- Group `\s*[,;]\s*tok` of the second row pattern. -/
def group2 (l : List Char) : Option Nat :=
  let w1 := countWhile isSpaceCh l
  match l.drop w1 with
  | [] => none
  | c :: t =>
    if c = ',' ∨ c = ';' then
      let w2 := countWhile isSpaceCh t
      match matchTokCI (t.drop w2) with
      | some k => some (w1 + 1 + w2 + k)
      | none => none
    else none

/-- Group `-tok` of the third row pattern. -/
def group3 (l : List Char) : Option Nat :=
  match l with
  | [] => none
  | c :: t =>
    if c = '-' then
      match matchTokCI t with
      | some k => some (1 + k)
      | none => none
    else none

/-- Greedy star over a group: repeat while the group matches.  Each group
consumes at least one character; the fuel (string length) only serves
termination. -/
def starG (g : List Char → Option Nat) : Nat → List Char → Nat
  | 0, _ => 0
  | fuel + 1, l =>
    match g l with
    | some n => if n = 0 then 0 else n + starG g fuel (l.drop n)
    | none => 0

/-- `[RCLUDQJXYFT]\d+(?:[,;]\s*[RCLUDQJXYFT]\d+)*` -/
def matchRef1 (l : List Char) : Option Nat :=
  match matchTokCI l with
  | some k => some (k + starG group1 l.length (l.drop k))
  | none => none

/-- `[RCLUDQJXYFT]\d+(?:\s*[,;]\s*[RCLUDQJXYFT]\d+)*` -/
def matchRef2 (l : List Char) : Option Nat :=
  match matchTokCI l with
  | some k => some (k + starG group2 l.length (l.drop k))
  | none => none

/-- `[RCLUDQJXYFT]\d+(?:-[RCLUDQJXYFT]\d+)*` -/
def matchRef3 (l : List Char) : Option Nat :=
  match matchTokCI l with
  | some k => some (k + starG group3 l.length (l.drop k))
  | none => none

/-- The three reference patterns in declared order. -/
def refPatterns : List (List Char → Option Nat) := [matchRef1, matchRef2, matchRef3]

/-- The match with the strictly largest case-sensitive token count across
all cells and patterns (`best_match`, initially the empty string). -/
def bestRefMatch (row : List String) : String :=
  (row.foldl
    (fun st cell =>
      let cs := pyStrip cell
      refPatterns.foldl
        (fun st pat =>
          (findAll pat cs.data).foldl
            (fun st m =>
              let rc := (findAll matchTokCS m.data).length
              if st.1 < rc then (rc, m) else st)
            st)
        st)
    (0, "")).2

/-- `extract_reference_designators` of one row: re-extract the individual
tokens of the winning match and join them with commas. -/
def extractRefs (row : List String) : String :=
  let bm := bestRefMatch row
  if bm ≠ "" then String.intercalate "," (findAll matchTokCI bm.data) else bm

/-- Python `s.split(',')`: the comma-separated pieces (consecutive commas
yield empty pieces, the empty string yields one empty piece). -/
def splitCommaAux : List Char → List Char → List String
  | [], acc => [String.mk acc.reverse]
  | c :: t, acc =>
    if c = ',' then String.mk acc.reverse :: splitCommaAux t []
    else splitCommaAux t (c :: acc)

def splitComma (s : String) : List String := splitCommaAux s.data []

/-- `count_references`: split on commas, strip, count the non-empty parts. -/
def countReferences (s : String) : Nat :=
  if s = "" then 0
  else (((splitComma s).map pyStrip).filter (fun r => r ≠ "")).length

/-! ## Manufacturer detection (`detect_manufacturers`) -/

/-- The fixed list of known manufacturer names, in declared order. -/
def mfrList : List String :=
  ["KOA", "Murata", "TDK", "Panasonic", "Vishay", "Yageo", "Rohm", "Taiyo Yuden",
   "Samsung", "Nichicon", "Rubycon", "KEMET", "AVX", "Bourns", "Coilcraft"]

/-- The first listed manufacturer whose name occurs case-insensitively in a
cell (the inner loop of the source breaks at the first hit). -/
def cellMfr (cell : String) : Option String :=
  mfrList.find? (fun m => containsL (lowerStr m).data (lowerStr (pyStrip cell)).data)

/-- Per-row manufacturer entry of the `manufacturers` dictionary: every hit
overwrites the previous one (the `break` only leaves the name loop), so the
rightmost matching cell ends up stored. -/
def detectManufacturerRow (row : List String) : Option String :=
  row.foldl
    (fun acc cell =>
      match cellMfr cell with
      | some m => some m
      | none => acc)
    none

/-! ## Quantity calculation (`calculate_quantity`)

`none` models a `ZeroDivisionError` escaping the function; there is no
other failure path.  `Int.tdiv` is Python's `int(a / b)` (truncation
toward zero). -/

def calculateQuantity (refCount : Int) (requiredQty : Option Int) (panelCount : Int) :
    Option Int :=
  match requiredQty with
  | some q =>
    if 0 < q then
      if panelCount = 0 then none else some (max 1 (Int.tdiv q panelCount))
    else
      if 0 < refCount then
        if panelCount = 0 then none else some (max 1 (Int.tdiv refCount panelCount))
      else some 1
  | none =>
    if 0 < refCount then
      if panelCount = 0 then none else some (max 1 (Int.tdiv refCount panelCount))
    else some 1

/-! ## Component classification (`component_classifier.py`)

Each recognition pattern of `component_patterns` is one of three shapes:
`^PFX\d+` (anchored prefix then digits), `PFX\d+` (floating prefix then
digits) or a plain literal substring, always searched with
`re.IGNORECASE` (both sides are compared ASCII-lowered; the Japanese
literals are unaffected by case). -/

inductive Pat where
  | anchoredD (pfx : String)
  | floatingD (pfx : String)
  | lit (w : String)

/-- Does `l` start with the lowered prefix followed by at least one digit? -/
def prefixD (p l : List Char) : Bool :=
  match p, l with
  | [], c :: _ => isDigitCh c
  | [], [] => false
  | _ :: _, [] => false
  | a :: p, b :: l => a = b && prefixD p l

/-- Floating search for a lowered prefix followed by a digit. -/
def searchFD (p : List Char) : List Char → Bool
  | [] => false
  | c :: t => prefixD p (c :: t) || searchFD p t

/-- `re.search(pattern, s, re.IGNORECASE)` for the three pattern shapes. -/
def patSearch (p : Pat) (s : String) : Bool :=
  match p with
  | .anchoredD pfx => prefixD (lowerStr pfx).data (lowerStr s).data
  | .floatingD pfx => searchFD (lowerStr pfx).data (lowerStr s).data
  | .lit w => containsL (lowerStr w).data (lowerStr s).data

/-- The classification defaults assigned by one category:
`品名` (display name), `部品型番` (package type), `実装/検査` (assembly flag). -/
structure Defaults where
  hinmei : String
  pkg : String
  flag : String
deriving DecidableEq

/-- `component_patterns`, in dictionary (insertion) order: resistor,
capacitor, inductor, diode, transistor, ic, connector, crystal. -/
def categories : List (List Pat × Defaults) :=
  [([.anchoredD "R", .floatingD "RK", .floatingD "RC", .floatingD "RF", .floatingD "RN",
     .lit "resistor", .lit "抵抗"],
    ⟨"チップ抵抗", "SMD", "実装"⟩),
   ([.anchoredD "C", .floatingD "CC", .floatingD "CG", .lit "capacitor", .lit "コンデンサ"],
    ⟨"チップコンデンサ", "SMD", "実装"⟩),
   ([.anchoredD "L", .floatingD "LK", .lit "inductor", .lit "インダクタ"],
    ⟨"チップインダクタ", "SMD", "実装"⟩),
   ([.anchoredD "D", .floatingD "BAS", .floatingD "BAT", .lit "diode", .lit "ダイオード"],
    ⟨"ダイオード", "SMD", "実装"⟩),
   ([.anchoredD "Q", .anchoredD "T", .floatingD "BSS", .floatingD "BC",
     .lit "transistor", .lit "トランジスタ"],
    ⟨"トランジスタ", "SMD", "実装"⟩),
   ([.anchoredD "U", .anchoredD "IC", .lit "ATmega", .floatingD "PIC", .lit "STM32",
     .floatingD "LM", .floatingD "TL"],
    ⟨"IC", "SMD", "実装"⟩),
   ([.anchoredD "J", .anchoredD "CN", .anchoredD "P", .lit "connector", .lit "コネクタ"],
    ⟨"コネクタ", "DIP", "実装"⟩),
   ([.anchoredD "X", .anchoredD "Y", .lit "crystal", .lit "水晶", .lit "クリスタル"],
    ⟨"水晶振動子", "SMD", "実装"⟩)]

/-- The first category (in declared order) with a pattern matching `s`;
a category hit overwrites all three default fields, so only its
`Defaults` triple is needed. -/
def findCategory (s : String) : Option Defaults :=
  (categories.find? (fun cd => cd.1.any (fun p => patSearch p s))).map (fun cd => cd.2)

/-- `manufacturer_defaults`: exact (case-sensitive) name to display name. -/
def mfrDefaults : List (String × String) :=
  [("KOA", "チップ抵抗"), ("Murata", "チップコンデンサ"), ("TDK", "チップコンデンサ"),
   ("Panasonic", "チップコンデンサ"), ("Yageo", "チップ抵抗"), ("Vishay", "チップ抵抗")]

/-- `classify_component`: reference designator first, then part number,
then the manufacturer lookup (which only sets the display name), else the
process defaults `{'', 'SMD', '実装'}`. -/
def classify (partNumber manufacturer refDesignator : String) : Defaults :=
  let base : Defaults := ⟨"", "SMD", "実装"⟩
  match (if refDesignator = "" then none else findCategory refDesignator) with
  | some d => d
  | none =>
    match (if partNumber = "" then none else findCategory partNumber) with
    | some d => d
    | none =>
      match (mfrDefaults.find? (fun kv => kv.1 = manufacturer)).map (fun kv => kv.2) with
      | some h => { base with hinmei := h }
      | none => base

/-- `detect_package_type`: substring tests on the uppercased part number,
BGA family first, then DIP family, then chip-size codes, default SMD.
The manufacturer argument is accepted and ignored, as in the source. -/
def detectPackageType (partNumber : String) (_manufacturer : String) : String :=
  let up := partNumber.data.map upCh
  if ["BGA", "FBGA", "UBGA", "CBGA"].any (fun p => containsL p.data up) then "組込(BGA他)"
  else if ["DIP", "PDIP", "SOIC", "SOP", "SSOP", "TSSOP", "QFP", "LQFP", "TQFP"].any
      (fun p => containsL p.data up) then "DIP"
  else if ["0201", "0402", "0603", "0805", "1206", "1210", "2010", "2512"].any
      (fun p => containsL p.data up) then "SMD"
  else "SMD"

/-- One output record of the template mapper (`template_row`).  Field names
romanise the Japanese dictionary keys: `maker` = メーカー, `hinmei` = 品名,
`partNo` = 電子部品型番, `refs` = 配置記号, `ko` = 個, `jisso` = 実装数,
`gokei` = 合計, `flag` = 実装/検査, `pkg` = 部品型番, `hitsuyo` = 必要数. -/
structure Record where
  no : Nat
  maker : String
  hinmei : String
  partNo : String
  refs : String
  ko : Int
  jisso : Int
  gokei : Int
  flag : String
  pkg : String
  hitsuyo : Int
deriving DecidableEq

/-- Python truthiness of `s.strip()` negated: blank iff every character is
whitespace (in particular iff `s` is empty or whitespace-only). -/
def blank (s : String) : Bool := s.data.all isSpaceCh

/-- The defaults loop of `enhance_component_data`: each of the three keys
is filled only when its current value is blank. -/
def applyDefaults (r : Record) (d : Defaults) : Record :=
  { r with
    hinmei := if blank r.hinmei then d.hinmei else r.hinmei,
    pkg := if blank r.pkg then d.pkg else r.pkg,
    flag := if blank r.flag then d.flag else r.flag }

/-- `enhance_component_data`: classify, fill blank fields with the
defaults, then run `detect_package_type` only if the package field is
still blank. -/
def enhance (r : Record) : Record :=
  let part := r.partNo
  let mfr := r.maker
  let ref := r.refs
  let d := classify part mfr ref
  let r1 := applyDefaults r d
  if blank r1.pkg then { r1 with pkg := detectPackageType part mfr } else r1

/-! ## Template mapping (`map_to_template`)

One record per detected part number, in detection order, numbered from 1.
The manufacturers dictionary maps each row index to that row's
`detectManufacturerRow` result (rows are processed independently), and
`dict.get(row_idx, '')` is its `getD ""`.  A `none` from the quantity
calculation (division by zero) aborts the whole conversion, modelled by
the `Option` result. -/

def buildRecord (df : List (List String)) (panelCount : Int) (n rowIdx : Nat)
    (part : String) : Option Record :=
  let row := df.getD rowIdx []
  let refs := extractRefs row
  let refCount : Int := (countReferences refs : Nat)
  let mfr := (detectManufacturerRow row).getD ""
  match calculateQuantity refCount none panelCount with
  | some q1 =>
    some (enhance
      { no := n, maker := mfr, hinmei := "", partNo := part, refs := refs,
        ko := q1 * panelCount, jisso := q1, gokei := q1 * panelCount,
        flag := "実装", pkg := "SMD", hitsuyo := q1 })
  | none => none

def buildRows (df : List (List String)) (panelCount : Int) :
    Nat → List (Nat × String) → Option (List Record)
  | _, [] => some []
  | n, (rowIdx, part) :: rest =>
    match buildRecord df panelCount n rowIdx part, buildRows df panelCount (n + 1) rest with
    | some r, some rs => some (r :: rs)
    | _, _ => none

/-- `map_to_template` on a grid with a panel count. -/
def mapToTemplate (df : List (List String)) (panelCount : Int) : Option (List Record) :=
  buildRows df panelCount 1 (detectPartNumbers df)

/-! ## Specification-side definitions

These follow the wording of the claims under scrutiny (not the source) and
are compared with the source-derived definitions above. -/

/-- The structural bonus condition as the claim words it, parametrised by
the letter class: the string contains a letter-run (two consecutive
letters), later three consecutive digits, and later another letter. -/
def structWith (letterP : Char → Bool) (m : List Char) : Prop :=
  ∃ (p q r s : List Char) (u1 u2 d1 d2 d3 w : Char),
    m = p ++ u1 :: u2 :: (q ++ d1 :: d2 :: d3 :: (r ++ w :: s)) ∧
    letterP u1 = true ∧ letterP u2 = true ∧
    isDigitCh d1 = true ∧ isDigitCh d2 = true ∧ isDigitCh d3 = true ∧
    letterP w = true

/-- The claim's reading of the bonus: any letters count (case-insensitive). -/
def structCI (m : List Char) : Prop := structWith isLetterCI m

/-- The amended bonus condition: only uppercase letters count, as in the
source's flag-less `re.search`. -/
def structCS (m : List Char) : Prop := structWith isUpperCh m

/-- The per-unit quantity exactly as claim C6 words it, with `floor`
division (`Int.fdiv`). -/
def claimPerUnit (refCount : Int) (requiredQty : Option Int) (panelCount : Int) : Int :=
  match requiredQty with
  | some q =>
    if 0 < q then max 1 (Int.fdiv q panelCount)
    else if 0 < refCount then max 1 (Int.fdiv refCount panelCount) else 1
  | none =>
    if 0 < refCount then max 1 (Int.fdiv refCount panelCount) else 1

/-- The amended manufacturer rule: the hit of the last (rightmost) cell
that contains any listed manufacturer. -/
def specLastMfr (row : List String) : Option String :=
  (row.filterMap cellMfr).getLast?

/-- A well-formed designator token: a class letter followed by at least
one digit (hence never empty). -/
def isTokShape (t : String) : Bool :=
  match t.data with
  | c :: d :: ds => refClassCI c && isDigitCh d && ds.all isDigitCh
  | _ => false

/-! ## Helper lemmas -/

/-- Left-biased choice on options (the overwrite pattern of the
manufacturer fold, seen from the right). -/
def orO {α : Type} (x y : Option α) : Option α :=
  match x with
  | some a => some a
  | none => y

theorem orO_none_right {α : Type} (x : Option α) : orO x none = x := by
  cases x <;> rfl

theorem getLast?_eq_orO {α : Type} (a : α) (t : List α) :
    (a :: t).getLast? = orO t.getLast? (some a) := by
  induction t generalizing a with
  | nil => rfl
  | cons b t ih =>
    rw [List.getLast?_cons_cons, ih b]
    cases t.getLast? <;> rfl

theorem mfr_foldl (l : List String) (acc : Option String) :
    l.foldl
      (fun acc cell =>
        match cellMfr cell with
        | some m => some m
        | none => acc)
      acc = orO (l.filterMap cellMfr).getLast? acc := by
  induction l generalizing acc with
  | nil => rfl
  | cons c l ih =>
    simp only [List.foldl_cons]
    cases hc : cellMfr c with
    | none =>
      rw [List.filterMap_cons_none hc]
      simp only [hc]
      exact ih acc
    | some m =>
      rw [List.filterMap_cons_some hc, getLast?_eq_orO]
      simp only [hc]
      rw [ih (some m)]
      cases (l.filterMap cellMfr).getLast? <;> rfl

/-! ## Claim C1 -/

/-- C1 (counterexample): on the row `["RK73B2ATTD1002F", "R1,R5", "KOA"]`
the part-number detector returns `"RK73B2ATTD1002"` — the greedy match of
the top-priority pattern stops before the final `F` (its optional tail
ends in `\d*`), so the claimed part number `"RK73B2ATTD1002F"` is not
produced. -/
theorem c1_counterexample :
    detectPartRow ["RK73B2ATTD1002F", "R1,R5", "KOA"] = some "RK73B2ATTD1002" ∧
    (some "RK73B2ATTD1002" : Option String) ≠ some "RK73B2ATTD1002F" := by
  constructor
  · decide
  · decide

/-- C1 (amended): the pipeline on the row
`["RK73B2ATTD1002F", "R1,R5", "KOA"]` with panel count 8 produces exactly
one record with part number `"RK73B2ATTD1002"`, reference designators
`"R1,R5"`, manufacturer `"KOA"`, the resistor display name `"チップ抵抗"`
and package type SMD. -/
theorem c1_amended :
    mapToTemplate [["RK73B2ATTD1002F", "R1,R5", "KOA"]] 8 =
      some [⟨1, "KOA", "チップ抵抗", "RK73B2ATTD1002", "R1,R5", 8, 1, 8, "実装", "SMD", 1⟩] := by
  decide

/-! ## Claim C2 -/

/-- C2 (counterexample): in the row `["KOA", "Murata"]` the first cell
contains the listed manufacturer KOA, yet the detector returns Murata from
the later cell — the `break` only leaves the inner name loop, so later
cells overwrite earlier hits. -/
theorem c2_counterexample :
    cellMfr "KOA" = some "KOA" ∧
    detectManufacturerRow ["KOA", "Murata"] = some "Murata" ∧
    (some "Murata" : Option String) ≠ some "KOA" := by
  refine ⟨by decide, by decide, by decide⟩

/-- C2 (amended): for every row, the detector returns the hit of the last
(rightmost) cell containing a listed manufacturer, where within one cell
the first name in list order wins; earlier cells are overwritten. -/
theorem c2_amended (row : List String) :
    detectManufacturerRow row = specLastMfr row := by
  unfold detectManufacturerRow specLastMfr
  rw [mfr_foldl, orO_none_right]

/-! ## Claim C3 -/

/-- C3 (counterexample): with `panel_count = -1 < 1` the quantity
calculation is not rejected: it computes and returns a quantity (1). -/
theorem c3_counterexample :
    ((-1 : Int) < 1) ∧ calculateQuantity 16 none (-1) = some 1 := by
  refine ⟨by decide, by decide⟩

/-- C3 (amended): `calculate_quantity` performs no panel-count validation
and no `InvalidConfiguration` rejection exists.  For every
`panel_count < 1` the computation proceeds: it returns a value whenever
`panel_count ≠ 0`, and its only failure mode is the `ZeroDivisionError`
(`none`) at `panel_count = 0`. -/
theorem c3_amended (rc : Int) (eq : Option Int) (pc : Int) (_h : pc < 1) :
    (pc ≠ 0 → (calculateQuantity rc eq pc).isSome = true) ∧
    (calculateQuantity rc eq pc = none → pc = 0) := by
  unfold calculateQuantity
  rcases eq with _ | q
  · refine ⟨fun hne => ?_, fun hnone => ?_⟩
    · by_cases hrc : 0 < rc
      · simp [hrc, hne]
      · simp [hrc]
    · by_cases hrc : 0 < rc
      · by_cases hpz : pc = 0
        · exact hpz
        · simp [hrc, hpz] at hnone
      · simp [hrc] at hnone
  · refine ⟨fun hne => ?_, fun hnone => ?_⟩
    · by_cases hq : 0 < q
      · simp [hq, hne]
      · by_cases hrc : 0 < rc
        · simp [hq, hrc, hne]
        · simp [hq, hrc]
    · by_cases hq : 0 < q
      · by_cases hpz : pc = 0
        · exact hpz
        · simp [hq, hpz] at hnone
      · by_cases hrc : 0 < rc
        · by_cases hpz : pc = 0
          · exact hpz
          · simp [hq, hrc, hpz] at hnone
        · simp [hq, hrc] at hnone

/-- C3 witness: the amended theorem applied at
`ref_count = 16`, `panel_count = -1`. -/
theorem c3_witness :
    ((-1 : Int) < 1) ∧ ((-1 : Int) ≠ 0 → (calculateQuantity 16 none (-1)).isSome = true) :=
  ⟨by decide, (c3_amended 16 none (-1) (by decide)).1⟩

/-! ## Claim C4 (counterexample; the amended theorem follows later) -/

/-- C4 (counterexample): on the row `["R1,R1"]` the extractor returns
`"R1,R1"`, which lists the designator R1 twice — the matched span is NOT
de-duplicated. -/
theorem c4_counterexample :
    extractRefs ["R1,R1"] = "R1,R1" ∧ splitComma "R1,R1" = ["R1", "R1"] ∧
    ¬ (["R1", "R1"] : List String).Nodup := by
  refine ⟨by decide, by decide, by decide⟩

/-! ## Claim C6 -/

/-- C6 (confirmed): for every `ref_count ≥ 0`, optional explicit quantity
and `panel_count ≥ 1`, the calculation returns exactly the claimed
priority rule (explicit quantity first, then reference count, floor
division, clamped to at least 1), and in particular the three quoted
values. -/
theorem c6_theorem (rc pc : Int) (eq : Option Int) (_h1 : 0 ≤ rc) (h2 : 1 ≤ pc) :
    calculateQuantity rc eq pc = some (claimPerUnit rc eq pc) ∧
    1 ≤ claimPerUnit rc eq pc ∧
    calculateQuantity 16 none 8 = some 2 ∧
    calculateQuantity 0 (some 40) 8 = some 5 ∧
    calculateQuantity 0 none 8 = some 1 := by
  have hpc0 : pc ≠ 0 := by omega
  have hpc : (0 : Int) ≤ pc := by omega
  refine ⟨?_, ?_, by decide, by decide, by decide⟩
  · unfold calculateQuantity claimPerUnit
    rcases eq with _ | q
    · by_cases hrc : 0 < rc
      · simp [hrc, hpc0, Int.fdiv_eq_tdiv (le_of_lt hrc) hpc]
      · simp [hrc]
    · by_cases hq : 0 < q
      · simp [hq, hpc0, Int.fdiv_eq_tdiv (le_of_lt hq) hpc]
      · by_cases hrc : 0 < rc
        · simp [hq, hrc, hpc0, Int.fdiv_eq_tdiv (le_of_lt hrc) hpc]
        · simp [hq, hrc]
  · unfold claimPerUnit
    rcases eq with _ | q
    · by_cases hrc : 0 < rc
      · simp [hrc, le_max_left]
      · simp [hrc]
    · by_cases hq : 0 < q
      · simp [hq, le_max_left]
      · by_cases hrc : 0 < rc
        · simp [hq, hrc, le_max_left]
        · simp [hq, hrc]

/-- C6 witness: the theorem applied at `ref_count = 16`,
`explicit_qty` absent, `panel_count = 8`. -/
theorem c6_witness :
    calculateQuantity 16 none 8 = some (claimPerUnit 16 none 8) ∧
    1 ≤ claimPerUnit 16 none 8 :=
  ⟨(c6_theorem 16 8 none (by decide) (by decide)).1,
   (c6_theorem 16 8 none (by decide) (by decide)).2.1⟩

/-! ## Claim C7 -/

/-- C7 (confirmed): the semicolon-, comma- and dash-separated renderings
of the same three designators all canonicalise to `"R1,R5,C10"`. -/
theorem c7_theorem :
    extractRefs ["R1;R5; C10"] = "R1,R5,C10" ∧
    extractRefs ["R1,R5,C10"] = "R1,R5,C10" ∧
    extractRefs ["R1-R5-C10"] = "R1,R5,C10" := by
  refine ⟨by decide, by decide, by decide⟩

/-! ## Claims C8 and C10: the enhancement step -/

/-- Every category's default package is SMD or DIP (connector only). -/
theorem findCategory_pkg {s : String} {d : Defaults} (h : findCategory s = some d) :
    d.pkg = "SMD" ∨ d.pkg = "DIP" := by
  unfold findCategory at h
  cases hf : categories.find? (fun cd => cd.1.any (fun p => patSearch p s)) with
  | none => rw [hf] at h; simp at h
  | some cd =>
    rw [hf] at h
    simp only [Option.map_some'] at h
    have hmem := List.mem_of_find?_eq_some hf
    have hall : ∀ cd ∈ categories, cd.2.pkg = "SMD" ∨ cd.2.pkg = "DIP" := by decide
    rw [← Option.some.inj h]
    exact hall cd hmem

/-- `classify_component` always returns a package default of SMD or DIP. -/
theorem classify_pkg (p m rf : String) :
    (classify p m rf).pkg = "SMD" ∨ (classify p m rf).pkg = "DIP" := by
  unfold classify
  cases h1 : (if rf = "" then none else findCategory rf) with
  | some d =>
    have hd : findCategory rf = some d := by
      by_cases hrf : rf = ""
      · simp [hrf] at h1
      · simpa [hrf] using h1
    simpa using findCategory_pkg hd
  | none =>
    cases h2 : (if p = "" then none else findCategory p) with
    | some d =>
      have hd : findCategory p = some d := by
        by_cases hp : p = ""
        · simp [hp] at h2
        · simpa [hp] using h2
      simpa using findCategory_pkg hd
    | none =>
      cases h3 : (mfrDefaults.find? (fun kv => kv.1 = m)).map (fun kv => kv.2) with
      | some hname => simp
      | none => simp

/-- C8 (confirmed): `enhance_component_data` never touches the part
number, manufacturer or designators, and fills the display name, package
type and assembly flag only when blank — a non-blank value (such as a
display name already set to `"X"`) survives unchanged, regardless of the
part number. -/
theorem c8_theorem (r : Record) :
    (enhance r).partNo = r.partNo ∧ (enhance r).maker = r.maker ∧
    (enhance r).refs = r.refs ∧
    (blank r.hinmei = false → (enhance r).hinmei = r.hinmei) ∧
    (blank r.pkg = false → (enhance r).pkg = r.pkg) ∧
    (blank r.flag = false → (enhance r).flag = r.flag) := by
  refine ⟨?_, ?_, ?_, fun h => ?_, fun h => ?_, fun h => ?_⟩
  · by_cases hp : blank r.pkg <;>
      by_cases hc : blank (classify r.partNo r.maker r.refs).pkg <;>
        simp [enhance, applyDefaults, hp, hc]
  · by_cases hp : blank r.pkg <;>
      by_cases hc : blank (classify r.partNo r.maker r.refs).pkg <;>
        simp [enhance, applyDefaults, hp, hc]
  · by_cases hp : blank r.pkg <;>
      by_cases hc : blank (classify r.partNo r.maker r.refs).pkg <;>
        simp [enhance, applyDefaults, hp, hc]
  · by_cases hp : blank r.pkg <;>
      by_cases hc : blank (classify r.partNo r.maker r.refs).pkg <;>
        simp [enhance, applyDefaults, hp, hc, h]
  · simp [enhance, applyDefaults, h]
  · by_cases hp : blank r.pkg <;>
      by_cases hc : blank (classify r.partNo r.maker r.refs).pkg <;>
        simp [enhance, applyDefaults, hp, hc, h]

/-- C8 witness: a record whose display name is already `"X"` keeps it even
though the part number would classify as a capacitor. -/
theorem c8_witness :
    blank "X" = false ∧
    (enhance ⟨1, "TDK", "X", "C1608X7R1H104K080AA", "", 8, 1, 8, "実装", "SMD", 1⟩).hinmei
      = "X" :=
  ⟨by decide,
   (c8_theorem ⟨1, "TDK", "X", "C1608X7R1H104K080AA", "", 8, 1, 8, "実装", "SMD", 1⟩).2.2.2.1
     (by decide)⟩

/-- C10 (confirmed): when the incoming package field is blank, the blank
field is filled by the classification default (always SMD or DIP — DIP
exactly for the connector category), so the follow-up blank check fails
and `detect_package_type` is never consulted; in particular the BGA result
`組込(BGA他)` is never produced for such records. -/
theorem c10_theorem (r : Record) (h : blank r.pkg = true) :
    (enhance r).pkg = (classify r.partNo r.maker r.refs).pkg ∧
    ((enhance r).pkg = "SMD" ∨ (enhance r).pkg = "DIP") ∧
    (enhance r).pkg ≠ "組込(BGA他)" := by
  have hd := classify_pkg r.partNo r.maker r.refs
  have hmain : (enhance r).pkg = (classify r.partNo r.maker r.refs).pkg := by
    rcases hd with h1 | h1 <;>
      simp +decide [enhance, applyDefaults, h, h1]
  refine ⟨hmain, ?_, ?_⟩
  · rw [hmain]; exact hd
  · rw [hmain]; rcases hd with h1 | h1 <;> rw [h1] <;> decide

/-- C10 witness: a blank-package record whose part number contains `BGA`
still comes out as SMD, although `detect_package_type` itself would have
said `組込(BGA他)`. -/
theorem c10_witness :
    blank "" = true ∧ detectPackageType "BGA256" "" = "組込(BGA他)" ∧
    ((enhance ⟨1, "", "", "BGA256", "", 8, 1, 8, "実装", "", 1⟩).pkg = "SMD" ∨
     (enhance ⟨1, "", "", "BGA256", "", 8, 1, 8, "実装", "", 1⟩).pkg = "DIP") :=
  ⟨by decide, by decide,
   (c10_theorem ⟨1, "", "", "BGA256", "", 8, 1, 8, "実装", "", 1⟩ (by decide)).2.1⟩

/-! ## Claim C9: quantity invariant of the template mapper -/

/-- A successful quantity calculation without an explicit quantity yields
at least 1. -/
theorem calc_none_pos {rc pc q : Int} (hpc : 1 ≤ pc) (h : calculateQuantity rc none pc = some q) :
    1 ≤ q := by
  unfold calculateQuantity at h
  by_cases h1 : 0 < rc
  · have hpz : pc ≠ 0 := by omega
    simp [h1, hpz] at h
    rw [← h]
    exact le_max_left _ _
  · simp [h1] at h
    omega

/-- The enhancement step never touches the numeric quantity fields. -/
theorem enhance_quant (r : Record) :
    (enhance r).jisso = r.jisso ∧ (enhance r).gokei = r.gokei ∧ (enhance r).ko = r.ko := by
  refine ⟨?_, ?_, ?_⟩ <;>
    by_cases hp : blank r.pkg <;>
    by_cases hc : blank (classify r.partNo r.maker r.refs).pkg <;>
      simp [enhance, applyDefaults, hp, hc]

/-- A record built for one detected part satisfies the quantity invariant. -/
theorem buildRecord_inv {df : List (List String)} {pc : Int} {n rowIdx : Nat}
    {part : String} {r0 : Record} (hpc : 1 ≤ pc)
    (h : buildRecord df pc n rowIdx part = some r0) :
    r0.gokei = r0.jisso * pc ∧ r0.ko = r0.jisso * pc ∧ 1 ≤ r0.jisso := by
  simp only [buildRecord] at h
  split at h
  next q1 hq =>
    have hr0 := Option.some.inj h
    have hj := enhance_quant
      { no := n, maker := (detectManufacturerRow (df.getD rowIdx [])).getD "",
        hinmei := "", partNo := part, refs := extractRefs (df.getD rowIdx []),
        ko := q1 * pc, jisso := q1, gokei := q1 * pc,
        flag := "実装", pkg := "SMD", hitsuyo := q1 }
    rw [← hr0]
    rw [hj.1, hj.2.1, hj.2.2]
    exact ⟨rfl, rfl, calc_none_pos hpc hq⟩
  next hq => simp at h

/-- All records produced by `buildRows` satisfy the quantity invariant. -/
theorem buildRows_inv {df : List (List String)} {pc : Int} (hpc : 1 ≤ pc) :
    ∀ (parts : List (Nat × String)) (n : Nat) (out : List Record),
      buildRows df pc n parts = some out →
      ∀ r ∈ out, r.gokei = r.jisso * pc ∧ r.ko = r.jisso * pc ∧ 1 ≤ r.jisso := by
  intro parts
  induction parts with
  | nil =>
    intro n out h r hr
    simp only [buildRows] at h
    rw [← Option.some.inj h] at hr
    simp at hr
  | cons hd tl ih =>
    intro n out h r hr
    rcases hd with ⟨rowIdx, part⟩
    simp only [buildRows] at h
    cases hb : buildRecord df pc n rowIdx part with
    | none => rw [hb] at h; simp at h
    | some r0 =>
      rw [hb] at h
      cases hrest : buildRows df pc (n + 1) tl with
      | none => rw [hrest] at h; simp at h
      | some rs =>
        rw [hrest] at h
        rw [← Option.some.inj h] at hr
        rcases List.mem_cons.mp hr with rfl | hr2
        · exact buildRecord_inv hpc hb
        · exact ih (n + 1) rs hrest r hr2

/-- C9 (confirmed): every record emitted by the template mapper with a
panel count ≥ 1 has total quantity (`合計` and `個`) equal to the per-unit
quantity (`実装数`) times the panel count, and a per-unit quantity ≥ 1. -/
theorem c9_theorem (df : List (List String)) (pc : Int) (out : List Record) (r : Record)
    (hpc : 1 ≤ pc) (hmap : mapToTemplate df pc = some out) (hr : r ∈ out) :
    r.gokei = r.jisso * pc ∧ r.ko = r.jisso * pc ∧ 1 ≤ r.jisso :=
  buildRows_inv hpc (detectPartNumbers df) 1 out hmap r hr

/-- C9 witness: the theorem applied to the concrete sample grid. -/
theorem c9_witness :
    (⟨1, "KOA", "チップ抵抗", "RK73B2ATTD1002", "R1,R5", 8, 1, 8, "実装", "SMD", 1⟩ :
      Record).gokei =
      (⟨1, "KOA", "チップ抵抗", "RK73B2ATTD1002", "R1,R5", 8, 1, 8, "実装", "SMD", 1⟩ :
        Record).jisso * 8 ∧
    (⟨1, "KOA", "チップ抵抗", "RK73B2ATTD1002", "R1,R5", 8, 1, 8, "実装", "SMD", 1⟩ :
      Record).ko =
      (⟨1, "KOA", "チップ抵抗", "RK73B2ATTD1002", "R1,R5", 8, 1, 8, "実装", "SMD", 1⟩ :
        Record).jisso * 8 ∧
    1 ≤ (⟨1, "KOA", "チップ抵抗", "RK73B2ATTD1002", "R1,R5", 8, 1, 8, "実装", "SMD", 1⟩ :
      Record).jisso :=
  c9_theorem [["RK73B2ATTD1002F", "R1,R5", "KOA"]] 8
    [⟨1, "KOA", "チップ抵抗", "RK73B2ATTD1002", "R1,R5", 8, 1, 8, "実装", "SMD", 1⟩]
    ⟨1, "KOA", "チップ抵抗", "RK73B2ATTD1002", "R1,R5", 8, 1, 8, "実装", "SMD", 1⟩
    (by decide) (by decide) (by decide)

/-! ## Claim C4 (amended theorem) -/

/-- The prefix of `l` of length `countWhile p l` is exactly its
`takeWhile`. -/
theorem take_countWhile (p : Char → Bool) (l : List Char) :
    l.take (countWhile p l) = l.takeWhile p :=
  (List.prefix_iff_eq_take.mp (List.takeWhile_prefix p)).symm

/-- Every string emitted by the token `findall` is a well-formed
designator token. -/
theorem tokShape_findAllAux (fuel : Nat) :
    ∀ (l : List Char), ∀ t ∈ findAllAux matchTokCI fuel l, isTokShape t = true := by
  induction fuel with
  | zero => intro l t ht; simp [findAllAux] at ht
  | succ fuel ih =>
    intro l t ht
    cases l with
    | nil => simp [findAllAux] at ht
    | cons c rest =>
      rw [findAllAux] at ht
      cases hm : matchTokCI (c :: rest) with
      | none => rw [hm] at ht; exact ih rest t ht
      | some n =>
        rw [hm] at ht
        rcases List.mem_cons.mp ht with rfl | h2
        · unfold matchTokCI matchTok at hm
          by_cases hc : refClassCI c
          · by_cases hd : 1 ≤ countWhile isDigitCh rest
            · simp only [hc, if_true, hd] at hm
              have hn : n = 1 + countWhile isDigitCh rest := (Option.some.inj hm).symm
              subst hn
              rw [Nat.add_comm 1 (countWhile isDigitCh rest)] at *
              rw [List.take_succ_cons, take_countWhile]
              have hall : (rest.takeWhile isDigitCh).all isDigitCh = true :=
                List.all_takeWhile
              cases htk : rest.takeWhile isDigitCh with
              | nil =>
                exfalso
                rw [countWhile, htk] at hd
                simp at hd
              | cons d0 ds =>
                rw [htk] at hall
                simp only [List.all_cons, Bool.and_eq_true] at hall
                simp [isTokShape, hc, hall.1, hall.2]
            · simp [hc, hd] at hm
          · simp [hc] at hm
        · exact ih _ t h2

/-- C4 (amended): the extractor returns either the empty string or the
comma-join of the designator tokens re-extracted left-to-right from the
winning matched span; every token is a class letter followed by at least
one digit (never empty).  Duplicates are preserved. -/
theorem c4_amended (row : List String) :
    extractRefs row = "" ∨
    (extractRefs row = String.intercalate "," (findAll matchTokCI (bestRefMatch row).data) ∧
     ∀ t ∈ findAll matchTokCI (bestRefMatch row).data, isTokShape t = true ∧ t ≠ "") := by
  by_cases h : bestRefMatch row = ""
  · left
    simp [extractRefs, h]
  · right
    refine ⟨by simp [extractRefs, h], fun t ht => ?_⟩
    have hs := tokShape_findAllAux _ _ t ht
    refine ⟨hs, fun he => ?_⟩
    rw [he] at hs
    simp [isTokShape] at hs

/-! ## Claim C5: the bonus scan matches its structural description -/

/-- `.*[A-Z]` succeeds exactly on strings that contain an uppercase letter
after a (newline-free) gap. -/
theorem tailUpper_iff (l : List Char) (h : ∀ c ∈ l, c ≠ '\n') :
    tailUpper l = true ↔
      ∃ (r s : List Char) (w : Char), l = r ++ w :: s ∧ isUpperCh w = true := by
  induction l with
  | nil =>
    constructor
    · intro ht; simp [tailUpper] at ht
    · rintro ⟨r, s, w, heq, -⟩
      exact absurd heq (by simp)
  | cons c t ih =>
    have ht' : ∀ x ∈ t, x ≠ '\n' := fun x hx => h x (List.mem_cons_of_mem _ hx)
    constructor
    · intro ht
      rw [tailUpper] at ht
      by_cases hu : isUpperCh c
      · exact ⟨[], t, c, rfl, hu⟩
      · simp only [hu, Bool.false_or, Bool.and_eq_true] at ht
        obtain ⟨r, s, w, heq, hw⟩ := (ih ht').mp ht.2
        exact ⟨c :: r, s, w, by rw [heq]; rfl, hw⟩
    · rintro ⟨r, s, w, heq, hw⟩
      rw [tailUpper]
      cases r with
      | nil =>
        have hc : c = w ∧ t = s := by simpa using heq
        simp [hc.1, hw]
      | cons r0 rt =>
        have hc : c = r0 ∧ t = rt ++ w :: s := by simpa using heq
        have hdot : dotCh c = true := by
          simp only [dotCh, decide_eq_true_eq]
          exact h c (List.mem_cons_self c t)
        have htail : tailUpper t = true := (ih ht').mpr ⟨rt, s, w, hc.2, hw⟩
        simp [hdot, htail]

/-- `\d{3,}.*[A-Z]` succeeds exactly on three leading digits followed by a
successful `.*[A-Z]`. -/
theorem dig3Then_iff (l : List Char) :
    dig3Then l = true ↔
      ∃ (d1 d2 d3 : Char) (t : List Char), l = d1 :: d2 :: d3 :: t ∧
        isDigitCh d1 = true ∧ isDigitCh d2 = true ∧ isDigitCh d3 = true ∧
        tailUpper t = true := by
  cases l with
  | nil => simp [dig3Then]
  | cons a l1 =>
    cases l1 with
    | nil => simp [dig3Then]
    | cons b l2 =>
      cases l2 with
      | nil => simp [dig3Then]
      | cons c t =>
        constructor
        · intro hd
          simp only [dig3Then, Bool.and_eq_true] at hd
          exact ⟨a, b, c, t, rfl, hd.1.1.1, hd.1.1.2, hd.1.2, hd.2⟩
        · rintro ⟨d1, d2, d3, t2, heq, h1, h2, h3, h4⟩
          simp only [List.cons.injEq] at heq
          obtain ⟨rfl, rfl, rfl, rfl⟩ := heq
          simp [dig3Then, h1, h2, h3, h4]

/-- `.*\d{3,}.*[A-Z]` succeeds exactly when some split of the string puts
a successful `\d{3,}.*[A-Z]` after a newline-free prefix. -/
theorem midScan_iff (l : List Char) (h : ∀ c ∈ l, c ≠ '\n') :
    midScan l = true ↔ ∃ (q t : List Char), l = q ++ t ∧ dig3Then t = true := by
  induction l with
  | nil =>
    constructor
    · intro hm; simp [midScan] at hm
    · rintro ⟨q, t, heq, hd⟩
      obtain ⟨rfl, rfl⟩ := List.append_eq_nil.mp heq.symm
      simp [dig3Then] at hd
  | cons c t ih =>
    have ht' : ∀ x ∈ t, x ≠ '\n' := fun x hx => h x (List.mem_cons_of_mem _ hx)
    constructor
    · intro hm
      rw [midScan] at hm
      by_cases hd : dig3Then (c :: t) = true
      · exact ⟨[], c :: t, rfl, hd⟩
      · simp only [hd, Bool.false_or, Bool.and_eq_true] at hm
        obtain ⟨q, t2, heq, hdd⟩ := (ih ht').mp hm.2
        exact ⟨c :: q, t2, by rw [heq]; rfl, hdd⟩
    · rintro ⟨q, t2, heq, hd⟩
      rw [midScan]
      cases q with
      | nil =>
        have hc : c :: t = t2 := by simpa using heq
        rw [← hc] at hd
        simp [hd]
      | cons q0 qt =>
        have hc : c = q0 ∧ t = qt ++ t2 := by simpa using heq
        have hdot : dotCh c = true := by
          simp only [dotCh, decide_eq_true_eq]
          exact h c (List.mem_cons_self c t)
        have hmid : midScan t = true := (ih ht').mpr ⟨qt, t2, hc.2, hd⟩
        simp [hdot, hmid]

/-- `[A-Z]{2,}.*\d{3,}.*[A-Z]` succeeds exactly on two leading uppercase
letters followed by a successful `.*\d{3,}.*[A-Z]`. -/
theorem upper2Then_iff (l : List Char) :
    upper2Then l = true ↔
      ∃ (u1 u2 : Char) (t : List Char), l = u1 :: u2 :: t ∧
        isUpperCh u1 = true ∧ isUpperCh u2 = true ∧ midScan t = true := by
  cases l with
  | nil => simp [upper2Then]
  | cons a l1 =>
    cases l1 with
    | nil => simp [upper2Then]
    | cons b t =>
      constructor
      · intro hu
        simp only [upper2Then, Bool.and_eq_true] at hu
        exact ⟨a, b, t, rfl, hu.1.1, hu.1.2, hu.2⟩
      · rintro ⟨u1, u2, t2, heq, h1, h2, h3⟩
        simp only [List.cons.injEq] at heq
        obtain ⟨rfl, rfl, rfl⟩ := heq
        simp [upper2Then, h1, h2, h3]

/-- `re.search` tries every start position: the scan succeeds exactly when
some suffix carries a match. -/
theorem bonusSearch_split (l : List Char) :
    bonusSearch l = true ↔ ∃ (p t : List Char), l = p ++ t ∧ upper2Then t = true := by
  induction l with
  | nil =>
    constructor
    · intro hb; simp [bonusSearch] at hb
    · rintro ⟨p, t, heq, hu⟩
      obtain ⟨rfl, rfl⟩ := List.append_eq_nil.mp heq.symm
      simp [upper2Then] at hu
  | cons c t ih =>
    constructor
    · intro hb
      rw [bonusSearch] at hb
      by_cases hu : upper2Then (c :: t) = true
      · exact ⟨[], c :: t, rfl, hu⟩
      · simp only [hu, Bool.false_or] at hb
        obtain ⟨p, t2, heq, hup⟩ := ih.mp hb
        exact ⟨c :: p, t2, by rw [heq]; rfl, hup⟩
    · rintro ⟨p, t2, heq, hu⟩
      rw [bonusSearch]
      cases p with
      | nil =>
        have hc : c :: t = t2 := by simpa using heq
        rw [← hc] at hu
        simp [hu]
      | cons p0 pt =>
        have hc : c = p0 ∧ t = pt ++ t2 := by simpa using heq
        have hrec : bonusSearch t = true := ih.mpr ⟨pt, t2, hc.2, hu⟩
        simp [hrec]

/-- On newline-free strings the source's bonus search succeeds exactly
when the string contains two uppercase letters, later three digits, later
another uppercase letter. -/
theorem bonus_iff (l : List Char) (h : ∀ c ∈ l, c ≠ '\n') :
    bonusSearch l = true ↔ structCS l := by
  constructor
  · intro hb
    obtain ⟨p, t, rfl, hu⟩ := (bonusSearch_split _).mp hb
    have ht : ∀ c ∈ t, c ≠ '\n' := fun c hc => h c (List.mem_append_right _ hc)
    obtain ⟨u1, u2, t2, rfl, h1, h2, hm⟩ := (upper2Then_iff _).mp hu
    have ht2 : ∀ c ∈ t2, c ≠ '\n' := fun c hc => ht c (by simp [hc])
    obtain ⟨q, t3, rfl, hd⟩ := (midScan_iff _ ht2).mp hm
    obtain ⟨d1, d2, d3, t4, rfl, hd1, hd2, hd3, htu⟩ := (dig3Then_iff _).mp hd
    have ht4 : ∀ c ∈ t4, c ≠ '\n' := fun c hc => ht2 c (by simp [hc])
    obtain ⟨r, s, w, rfl, hw⟩ := (tailUpper_iff _ ht4).mp htu
    exact ⟨p, q, r, s, u1, u2, d1, d2, d3, w, rfl, h1, h2, hd1, hd2, hd3, hw⟩
  · rintro ⟨p, q, r, s, u1, u2, d1, d2, d3, w, rfl, h1, h2, hd1, hd2, hd3, hw⟩
    apply (bonusSearch_split _).mpr
    refine ⟨p, _, rfl, ?_⟩
    apply (upper2Then_iff _).mpr
    refine ⟨u1, u2, _, rfl, h1, h2, ?_⟩
    have hq : ∀ c ∈ q ++ d1 :: d2 :: d3 :: (r ++ w :: s), c ≠ '\n' := by
      intro c hc
      apply h
      simp only [List.mem_append, List.mem_cons] at hc ⊢
      tauto
    apply (midScan_iff _ hq).mpr
    refine ⟨q, _, rfl, ?_⟩
    apply (dig3Then_iff _).mpr
    refine ⟨d1, d2, d3, _, rfl, hd1, hd2, hd3, ?_⟩
    have hrs : ∀ c ∈ r ++ w :: s, c ≠ '\n' := by
      intro c hc
      apply hq
      simp only [List.mem_append, List.mem_cons] at hc ⊢
      tauto
    apply (tailUpper_iff _ hrs).mpr
    exact ⟨r, s, w, rfl, hw⟩

/-- C5 (counterexample): the case-insensitive pattern search finds the
all-lowercase match `"ab123c"`; it has the claimed letters-digits-letter
structure, yet its confidence is `26 = 20 + 6` — the `+10` bonus is NOT
granted because the bonus search runs without `re.IGNORECASE`. -/
theorem c5_counterexample :
    findAll matchA ("ab123c").data = ["ab123c"] ∧
    structCI ("ab123c").data ∧
    confidence 20 "ab123c" = 26 ∧
    (26 : Nat) ≠ 20 + ("ab123c").length + 10 :=
  ⟨by decide,
   ⟨[], [], [], [], 'a', 'b', '1', '2', '3', 'c', by decide, by decide, by decide,
    by decide, by decide, by decide, by decide⟩,
   by decide, by decide⟩

/-- C5 (amended): for every match, the confidence equals the base priority
plus the match length, plus 10 exactly when the match contains an
UPPERCASE letter-run, then 3+ digits, then another UPPERCASE letter (the
bonus search is case-sensitive), plus 5 when the length exceeds 8. -/
theorem c5_amended (base : Nat) (m : String) (h : ∀ c ∈ m.data, c ≠ '\n') :
    (structCS m.data →
      confidence base m = base + m.length + 10 + (if 8 < m.length then 5 else 0)) ∧
    (¬ structCS m.data →
      confidence base m = base + m.length + (if 8 < m.length then 5 else 0)) := by
  constructor
  · intro hs
    have hb : bonusSearch m.data = true := (bonus_iff m.data h).mpr hs
    simp [confidence, hb]
  · intro hs
    have hb : bonusSearch m.data = false := by
      by_cases hb : bonusSearch m.data = true
      · exact absurd ((bonus_iff m.data h).mp hb) hs
      · simpa using hb
    simp [confidence, hb]

/-- C5 witness: the amended theorem applied to the pattern-C match
`"ATTD1002F"` (base 10), whose uppercase structure earns the bonus. -/
theorem c5_witness :
    (∀ c ∈ ("ATTD1002F" : String).data, c ≠ '\n') ∧
    confidence 10 "ATTD1002F" =
      10 + ("ATTD1002F" : String).length + 10 +
        (if 8 < ("ATTD1002F" : String).length then 5 else 0) :=
  ⟨by decide,
   (c5_amended 10 "ATTD1002F" (by decide)).1
     ⟨[], ['T', 'D'], ['2'], [], 'A', 'T', '1', '0', '0', 'F', by decide, by decide,
      by decide, by decide, by decide, by decide, by decide⟩⟩

end LaunchApp
